import Mathlib

/-!
Verification of the Python environment discovery and resolution subsystem:
the environment storage (EnvironmentsStorage / EnvironmentsCollection), the
environment info service with its probe cache, and the Jupyter command and
kernel-spec resolution (JupyterExecution).

The embedding models JavaScript Maps as insertion-ordered association lists,
promises as explicit pending-continuation lists consumed by trace events, and
external probes (filesystem existence, subprocess execution) as function
parameters standing for the outcome the collaborator would deliver.
-/

namespace PyDiscovery

/-- Association-list model of a JavaScript Map with String keys, in insertion
order. -/
abbrev StrMap (α : Type) := List (String × α)

/-- Map.prototype.has. -/
def mapHas {α : Type} (m : StrMap α) (k : String) : Bool :=
  m.any (fun kv => decide (kv.1 = k))

/-- Map.prototype.get: undefined becomes none. -/
def mapGet {α : Type} (m : StrMap α) (k : String) : Option α :=
  (m.find? (fun kv => decide (kv.1 = k))).map (fun kv => kv.2)

/-- Map.prototype.set: updates in place when the key is present, appends
otherwise. -/
def mapSet {α : Type} (m : StrMap α) (k : String) (v : α) : StrMap α :=
  if mapHas m k then m.map (fun kv => if kv.1 = k then (k, v) else kv)
  else m ++ [(k, v)]

/-- Map.prototype.delete (deleting an absent key is a no-op). -/
def mapDelete {α : Type} (m : StrMap α) (k : String) : StrMap α :=
  m.filter (fun kv => decide (kv.1 ≠ k))

/-- Map.prototype.values as a list. -/
def mapValues {α : Type} (m : StrMap α) : List α := m.map (fun kv => kv.2)

/-- Map.prototype.keys as a list. -/
def mapKeys {α : Type} (m : StrMap α) : List String := m.map (fun kv => kv.1)

theorem mapHas_iff {α : Type} (m : StrMap α) (k : String) :
    mapHas m k = true ↔ k ∈ mapKeys m := by
  simp only [mapHas, mapKeys, List.any_eq_true, decide_eq_true_eq, List.mem_map]

theorem mapHas_false_iff {α : Type} (m : StrMap α) (k : String) :
    mapHas m k = false ↔ k ∉ mapKeys m := by
  constructor
  · intro h hk
    rw [← mapHas_iff, h] at hk
    simp at hk
  · intro h
    cases hh : mapHas m k with
    | false => rfl
    | true => exact absurd ((mapHas_iff m k).mp hh) h

theorem mapGet_eq_some {α : Type} {m : StrMap α} {k : String} {v : α}
    (h : mapGet m k = some v) : (k, v) ∈ m := by
  simp only [mapGet, Option.map_eq_some'] at h
  obtain ⟨kv, hfind, hv⟩ := h
  have hmem := List.mem_of_find?_eq_some hfind
  have hpred := List.find?_some hfind
  simp only [decide_eq_true_eq] at hpred
  cases kv
  simp only at hv hpred
  subst hv
  subst hpred
  exact hmem

theorem mapKeys_set_of_has {α : Type} {m : StrMap α} {k : String} (v : α)
    (h : mapHas m k = true) : mapKeys (mapSet m k v) = mapKeys m := by
  simp only [mapSet, h, if_true, mapKeys, List.map_map]
  apply List.map_congr_left
  intro kv _
  by_cases hk : kv.1 = k <;> simp [hk]

theorem mapKeys_set_of_not_has {α : Type} {m : StrMap α} {k : String} (v : α)
    (h : mapHas m k = false) : mapKeys (mapSet m k v) = mapKeys m ++ [k] := by
  simp [mapSet, h, mapKeys]

theorem mapKeys_set_nodup {α : Type} {m : StrMap α} (k : String) (v : α)
    (h : (mapKeys m).Nodup) : (mapKeys (mapSet m k v)).Nodup := by
  cases hhas : mapHas m k with
  | true => rw [mapKeys_set_of_has v hhas]; exact h
  | false =>
    rw [mapKeys_set_of_not_has v hhas]
    rw [mapHas_false_iff] at hhas
    simp [List.nodup_append, h, hhas]

theorem mapKeys_delete_sublist {α : Type} (m : StrMap α) (k : String) :
    List.Sublist (mapKeys (mapDelete m k)) (mapKeys m) := by
  simp only [mapDelete, mapKeys]
  exact (List.filter_sublist m).map (fun kv => kv.1)

theorem mapKeys_delete_nodup {α : Type} {m : StrMap α} (k : String)
    (h : (mapKeys m).Nodup) : (mapKeys (mapDelete m k)).Nodup :=
  (mapKeys_delete_sublist m k).nodup h

theorem mapHas_delete_self {α : Type} (m : StrMap α) (k : String) :
    mapHas (mapDelete m k) k = false := by
  simp [mapHas, mapDelete, List.any_eq_true, List.mem_filter]

theorem mapHas_delete_le {α : Type} {m : StrMap α} {k j : String}
    (h : mapHas (mapDelete m k) j = true) : mapHas m j = true := by
  simp only [mapHas, List.any_eq_true, decide_eq_true_eq] at h ⊢
  obtain ⟨kv, hkv, hj⟩ := h
  exact ⟨kv, (List.mem_filter.mp hkv).1, hj⟩

theorem mapDelete_of_not_has {α : Type} {m : StrMap α} {k : String}
    (h : mapHas m k = false) : mapDelete m k = m := by
  rw [mapHas_false_iff] at h
  apply List.filter_eq_self.mpr
  intro kv hkv
  simp only [ne_eq, decide_eq_true_eq]
  intro hk
  exact h (by simpa [mapKeys, hk] using List.mem_map_of_mem (fun kv => kv.1) hkv)

theorem mapHas_set {α : Type} (m : StrMap α) (k j : String) (v : α) :
    mapHas (mapSet m k v) j = (decide (j = k) || mapHas m j) := by
  rw [Bool.eq_iff_iff]
  simp only [Bool.or_eq_true, decide_eq_true_eq, mapHas_iff]
  cases hhas : mapHas m k with
  | true =>
    rw [mapKeys_set_of_has v hhas]
    have hk : k ∈ mapKeys m := (mapHas_iff m k).mp hhas
    constructor
    · exact fun h => Or.inr h
    · rintro (rfl | h)
      · exact hk
      · exact h
  | false =>
    rw [mapKeys_set_of_not_has v hhas]
    simp [List.mem_append, or_comm]

theorem mapGet_append_single {α : Type} {m : StrMap α} {k : String} (v : α)
    (h : mapHas m k = false) : mapGet (m ++ [(k, v)]) k = some v := by
  induction m with
  | nil => simp [mapGet, List.find?]
  | cons a as ih =>
    rw [mapHas_false_iff] at h
    simp only [mapKeys, List.map_cons, List.mem_cons, not_or] at h
    have ha : ¬a.1 = k := fun hh => h.1 hh.symm
    rw [List.cons_append]
    simp only [mapGet]
    rw [List.find?_cons_of_neg _ (by simpa using ha)]
    exact ih ((mapHas_false_iff as k).mpr (by simpa [mapKeys] using h.2))

theorem mapGet_map_update {α : Type} {m : StrMap α} {k : String} (v : α)
    (h : mapHas m k = true) :
    mapGet (m.map (fun kv => if kv.1 = k then (k, v) else kv)) k = some v := by
  induction m with
  | nil => simp [mapHas] at h
  | cons a as ih =>
    by_cases ha : a.1 = k
    · rw [List.map_cons, if_pos ha]
      simp only [mapGet]
      rw [List.find?_cons_of_pos _ (by simp)]
      rfl
    · simp only [mapHas, List.any_cons, Bool.or_eq_true, decide_eq_true_eq] at h
      rcases h with h | h
      · exact absurd h ha
      · rw [List.map_cons, if_neg ha]
        simp only [mapGet]
        rw [List.find?_cons_of_neg _ (by simpa using ha)]
        exact ih h

theorem mapGet_set_self {α : Type} (m : StrMap α) (k : String) (v : α) :
    mapGet (mapSet m k v) k = some v := by
  cases hhas : mapHas m k with
  | true =>
    simp only [mapSet, hhas, if_true]
    exact mapGet_map_update v hhas
  | false =>
    simp only [mapSet, hhas, Bool.false_eq_true, if_false]
    exact mapGet_append_single v hhas

theorem mapGet_isSome_iff_has {α : Type} (m : StrMap α) (k : String) :
    (mapGet m k).isSome = mapHas m k := by
  induction m with
  | nil => simp [mapGet, mapHas, List.find?]
  | cons a as ih =>
    by_cases ha : a.1 = k
    · simp only [mapGet]
      rw [List.find?_cons_of_pos _ (by simpa using ha)]
      simp [mapHas, ha]
    · simp only [mapGet]
      rw [List.find?_cons_of_neg _ (by simpa using ha)]
      have hh : mapHas (a :: as) k = mapHas as k := by
        simp [mapHas, ha]
      rw [hh]
      exact ih

theorem mapGet_map_update_ne {α : Type} (m : StrMap α) (k j : String) (v : α)
    (h : ¬j = k) :
    mapGet (m.map (fun kv => if kv.1 = k then (k, v) else kv)) j = mapGet m j := by
  induction m with
  | nil => rfl
  | cons a as ih =>
    have hkj : ¬k = j := fun hh => h hh.symm
    by_cases hak : a.1 = k
    · rw [List.map_cons, if_pos hak]
      simp only [mapGet]
      rw [List.find?_cons_of_neg _ (by simpa using hkj),
          List.find?_cons_of_neg _ (by simpa [hak] using hkj)]
      exact ih
    · rw [List.map_cons, if_neg hak]
      by_cases haj : a.1 = j
      · simp only [mapGet]
        rw [List.find?_cons_of_pos _ (by simpa using haj),
            List.find?_cons_of_pos _ (by simpa using haj)]
      · simp only [mapGet]
        rw [List.find?_cons_of_neg _ (by simpa using haj),
            List.find?_cons_of_neg _ (by simpa using haj)]
        exact ih

theorem mapGet_append_single_ne {α : Type} (m : StrMap α) (k j : String) (v : α)
    (h : ¬j = k) : mapGet (m ++ [(k, v)]) j = mapGet m j := by
  induction m with
  | nil =>
    have hkj : ¬k = j := fun hh => h hh.symm
    simp only [List.nil_append, mapGet]
    rw [List.find?_cons_of_neg _ (by simpa using hkj)]
  | cons a as ih =>
    rw [List.cons_append]
    by_cases haj : a.1 = j
    · simp only [mapGet]
      rw [List.find?_cons_of_pos _ (by simpa using haj),
          List.find?_cons_of_pos _ (by simpa using haj)]
    · simp only [mapGet]
      rw [List.find?_cons_of_neg _ (by simpa using haj),
          List.find?_cons_of_neg _ (by simpa using haj)]
      exact ih

theorem mapGet_set_ne {α : Type} (m : StrMap α) (k j : String) (v : α)
    (h : ¬j = k) : mapGet (mapSet m k v) j = mapGet m j := by
  cases hhas : mapHas m k with
  | true =>
    simp only [mapSet, hhas, if_true]
    exact mapGet_map_update_ne m k j v h
  | false =>
    simp only [mapSet, hhas, Bool.false_eq_true, if_false]
    exact mapGet_append_single_ne m k j v h

/-- A discovered Python environment record. The TypeScript
PartialPythonEnvironment carries a required path (the map key after
normalization) and a set of optional metadata fields (type, version,
architecture, environment name, and so on), which the storage logic never
inspects individually; the optional fields are abstracted as named field
values. -/
structure PartialPythonEnvironment where
  path : String
  fields : List (String × String)
deriving DecidableEq, Repr

/-- Modelled from the spec: the merge utility mergeEnvironments lives in the
info module, whose source file is not part of this repository snapshot.
Section 4.5 of the spec: records are combined into one per path, and for each
field the value of the record appearing earlier wins when both are non-empty,
otherwise the non-empty value is taken. mergeTwoEnvironments combines a later
record into an earlier one under that policy. -/
def mergeTwoEnvironments (a b : PartialPythonEnvironment) :
    PartialPythonEnvironment :=
  { path := a.path,
    fields := a.fields ++
      b.fields.filter (fun kv => !(a.fields.any (fun kw => decide (kw.1 = kv.1)))) }

/-- Modelled from the spec: one pass over the records, combining each record
into the already-collected record of the same path (earlier records take
precedence) and appending records with a fresh path, keeping first-seen
order. -/
def insertMergedEnvironment (acc : List PartialPythonEnvironment)
    (item : PartialPythonEnvironment) : List PartialPythonEnvironment :=
  if acc.any (fun e => decide (e.path = item.path)) then
    acc.map (fun e => if e.path = item.path then mergeTwoEnvironments e item else e)
  else acc ++ [item]

/-- Modelled from the spec: mergeEnvironments collapses a record list to one
record per path, in first-seen order. -/
def mergeEnvironments (items : List PartialPythonEnvironment) :
    List PartialPythonEnvironment :=
  items.foldl insertMergedEnvironment []

theorem mergeTwoEnvironments_path (a b : PartialPythonEnvironment) :
    (mergeTwoEnvironments a b).path = a.path := rfl

theorem insertMergedEnvironment_paths (acc : List PartialPythonEnvironment)
    (item : PartialPythonEnvironment) :
    ∀ x ∈ insertMergedEnvironment acc item,
      x.path ∈ acc.map PartialPythonEnvironment.path ∨ x.path = item.path := by
  intro x hx
  simp only [insertMergedEnvironment] at hx
  by_cases hmem : acc.any (fun e => decide (e.path = item.path)) = true
  · rw [if_pos hmem] at hx
    obtain ⟨e, he, hex⟩ := List.mem_map.mp hx
    by_cases hp : e.path = item.path
    · rw [if_pos hp] at hex
      left
      rw [← hex, mergeTwoEnvironments_path, hp]
      rw [← hp]
      exact List.mem_map_of_mem _ he
    · rw [if_neg hp] at hex
      left
      rw [← hex]
      exact List.mem_map_of_mem _ he
  · rw [if_neg hmem] at hx
    rcases List.mem_append.mp hx with h | h
    · exact Or.inl (List.mem_map_of_mem _ h)
    · right
      simp only [List.mem_singleton] at h
      rw [h]

theorem insertMergedEnvironment_ne_nil (acc : List PartialPythonEnvironment)
    (item : PartialPythonEnvironment) : insertMergedEnvironment acc item ≠ [] := by
  simp only [insertMergedEnvironment]
  by_cases hmem : acc.any (fun e => decide (e.path = item.path)) = true
  · rw [if_pos hmem]
    intro h
    rw [List.map_eq_nil_iff] at h
    rw [h] at hmem
    simp at hmem
  · rw [if_neg hmem]
    simp

theorem mergeEnvironments_foldl_ne_nil (items acc : List PartialPythonEnvironment)
    (hacc : acc ≠ []) : items.foldl insertMergedEnvironment acc ≠ [] := by
  induction items generalizing acc with
  | nil => exact hacc
  | cons a as ih =>
    rw [List.foldl_cons]
    exact ih _ (insertMergedEnvironment_ne_nil acc a)

theorem mergeEnvironments_eq_nil_iff (items : List PartialPythonEnvironment) :
    mergeEnvironments items = [] ↔ items = [] := by
  constructor
  · intro h
    cases items with
    | nil => rfl
    | cons a as =>
      exfalso
      apply mergeEnvironments_foldl_ne_nil as (insertMergedEnvironment [] a)
        (insertMergedEnvironment_ne_nil [] a)
      simpa [mergeEnvironments] using h
  · rintro rfl
    rfl

theorem mergeEnvironments_foldl_paths (items acc : List PartialPythonEnvironment) :
    ∀ x ∈ items.foldl insertMergedEnvironment acc,
      x.path ∈ acc.map PartialPythonEnvironment.path ++
        items.map PartialPythonEnvironment.path := by
  induction items generalizing acc with
  | nil => intro x hx; simpa using List.mem_map_of_mem _ hx
  | cons a as ih =>
    intro x hx
    rw [List.foldl_cons] at hx
    have hmem := ih (insertMergedEnvironment acc a) x hx
    rw [List.mem_append] at hmem
    rcases hmem with h | h
    · obtain ⟨y, hy, hyx⟩ := List.mem_map.mp h
      rcases insertMergedEnvironment_paths acc a y hy with h2 | h2
      · rw [← hyx]
        simp only [List.map_cons, List.mem_append, List.mem_cons]
        exact Or.inl h2
      · rw [← hyx]
        simp only [List.map_cons, List.mem_append, List.mem_cons]
        exact Or.inr (Or.inl h2)
    · simp only [List.map_cons, List.mem_append, List.mem_cons]
      exact Or.inr (Or.inr h)

theorem mergeEnvironments_paths (items : List PartialPythonEnvironment) :
    ∀ x ∈ mergeEnvironments items,
      x.path ∈ items.map PartialPythonEnvironment.path := by
  intro x hx
  simpa using mergeEnvironments_foldl_paths items [] x hx

theorem insertMergedEnvironment_of_fresh (acc : List PartialPythonEnvironment)
    (item : PartialPythonEnvironment)
    (h : item.path ∉ acc.map PartialPythonEnvironment.path) :
    insertMergedEnvironment acc item = acc ++ [item] := by
  have hc : ¬acc.any (fun e => decide (e.path = item.path)) = true := by
    simp only [List.any_eq_true, decide_eq_true_eq]
    push_neg
    intro e he hep
    exact h (by rw [← hep]; exact List.mem_map_of_mem _ he)
  simp only [insertMergedEnvironment, if_neg hc]

theorem mergeEnvironments_foldl_of_nodup (items acc : List PartialPythonEnvironment)
    (h : ((acc ++ items).map PartialPythonEnvironment.path).Nodup) :
    items.foldl insertMergedEnvironment acc = acc ++ items := by
  induction items generalizing acc with
  | nil => simp
  | cons a as ih =>
    rw [List.foldl_cons]
    have hfresh : a.path ∉ acc.map PartialPythonEnvironment.path := by
      intro hmem
      rw [List.map_append] at h
      have hd := (List.nodup_append.mp h).2.2
      exact hd hmem (by simp)
    rw [insertMergedEnvironment_of_fresh acc a hfresh]
    have hre : ((acc ++ [a]) ++ as) = acc ++ a :: as := by simp
    have := ih (acc ++ [a]) (by rw [hre]; exact h)
    rw [this, List.append_assoc]
    simp

theorem mergeEnvironments_of_nodup (items : List PartialPythonEnvironment)
    (h : (items.map PartialPythonEnvironment.path).Nodup) :
    mergeEnvironments items = items := by
  simpa [mergeEnvironments] using
    mergeEnvironments_foldl_of_nodup items [] (by simpa using h)

theorem mergeEnvironments_pair_headD (a b d : PartialPythonEnvironment) :
    (mergeEnvironments [a, b]).headD d =
      if a.path = b.path then mergeTwoEnvironments a b else a := by
  by_cases h : a.path = b.path
  · simp [mergeEnvironments, insertMergedEnvironment, h]
  · simp [mergeEnvironments, insertMergedEnvironment, h]

theorem mergeEnvironments_pair_headD_path (a b d : PartialPythonEnvironment) :
    ((mergeEnvironments [a, b]).headD d).path = a.path := by
  rw [mergeEnvironments_pair_headD]
  by_cases h : a.path = b.path
  · rw [if_pos h, mergeTwoEnvironments_path]
  · rw [if_neg h]

/-- The state of EnvironmentsStorage (equally of EnvironmentsCollection, whose
maps and deferred behave identically): the two record maps, the deferred
didEffortToPopulateStorageSucceed (none while pending, some v once resolved;
a later resolve of an already-resolved deferred is ignored), the enrichment
continuations attached by addPartialInfo that have not yet run, and the
validity checks scheduled by removeInvalidEntriesFromStorage that have not yet
resolved (the method fires them without awaiting them, since the inner promises
are dropped by the outer map callback). -/
structure StorageState where
  partialInfoEnvironmentMap : StrMap PartialPythonEnvironment
  completeInfoEnvironmentMap : StrMap PartialPythonEnvironment
  didEffortToPopulateStorageSucceed : Option Bool
  pendingEnrichments : List (String × PartialPythonEnvironment)
  pendingPartialChecks : List String
  pendingCompleteChecks : List String
deriving DecidableEq, Repr

/-- Deferred.resolve: only the first resolve takes effect. -/
def resolveDeferred (d : Option Bool) (v : Bool) : Option Bool :=
  match d with
  | none => some v
  | some w => some w

namespace EnvironmentsStorage

/-- The synchronous body of addPartialInfo in the default (non-blocking)
branch: normalize the path, no-op when a complete record exists, request
enrichment (getEnvironmentInfo, recorded as a pending continuation), merge
with a stored partial record when present, store into the partial map and
resolve the deferred with true. norm models path.normalize composed with
resolvePossibleSymlinkToRealPath (the latter is the identity in the source). -/
def addPartialInfo (norm : String → String) (st : StorageState)
    (interpreter : PartialPythonEnvironment) : StorageState :=
  let p := norm interpreter.path
  let interpreter1 : PartialPythonEnvironment := { interpreter with path := p }
  if mapHas st.completeInfoEnvironmentMap p then st
  else
    let interpreter2 :=
      match mapGet st.partialInfoEnvironmentMap p with
      | some storedValue => (mergeEnvironments [storedValue, interpreter1]).headD interpreter1
      | none => interpreter1
    { st with
      partialInfoEnvironmentMap := mapSet st.partialInfoEnvironmentMap p interpreter2,
      pendingEnrichments := st.pendingEnrichments ++ [(p, interpreter2)],
      didEffortToPopulateStorageSucceed :=
        resolveDeferred st.didEffortToPopulateStorageSucceed true }

/-- The continuation attached to the enrichment promise: when the probe
delivered an info record, merge it with the captured interpreter record and
store the result into the complete map under the captured path; then delete
the partial entry for that path; environmentInfo carries the probed metadata
fields (its interpreterPath is the queued path). A probe failure delivers
none, and then only the deletion runs. -/
def storeCompleteInfo (st : StorageState) (p : String)
    (interpreter : PartialPythonEnvironment)
    (environmentInfo : Option (List (String × String))) : StorageState :=
  let st1 :=
    match environmentInfo with
    | some infoFields =>
      let completeEnvironmentInfo :=
        (mergeEnvironments [{ path := p, fields := infoFields }, interpreter]).headD
          interpreter
      { st with
        completeInfoEnvironmentMap :=
          mapSet st.completeInfoEnvironmentMap p completeEnvironmentInfo }
    | none => st
  if mapHas st1.partialInfoEnvironmentMap p then
    { st1 with partialInfoEnvironmentMap := mapDelete st1.partialInfoEnvironmentMap p }
  else st1

/-- addPartialInfo when options.getCompleteInfoForAllEnvironments is set: the
enrichment continuation is awaited inside the call (the partial map is not
written in this branch), then the deferred is resolved. -/
def addPartialInfoBlocking (norm : String → String) (st : StorageState)
    (interpreter : PartialPythonEnvironment)
    (environmentInfo : Option (List (String × String))) : StorageState :=
  let p := norm interpreter.path
  let interpreter1 : PartialPythonEnvironment := { interpreter with path := p }
  if mapHas st.completeInfoEnvironmentMap p then st
  else
    let interpreter2 :=
      match mapGet st.partialInfoEnvironmentMap p with
      | some storedValue => (mergeEnvironments [storedValue, interpreter1]).headD interpreter1
      | none => interpreter1
    let st1 := storeCompleteInfo st p interpreter2 environmentInfo
    { st1 with
      didEffortToPopulateStorageSucceed :=
        resolveDeferred st1.didEffortToPopulateStorageSucceed true }

end EnvironmentsStorage

/-- The atomic scheduler steps of the storage: the synchronous body of an
addPartialInfo call, a blocking addPartialInfo call, one enrichment
continuation resolving (with the probe result, none on failure), one
removeInvalidEntriesFromStorage call capturing the entries of both maps and
scheduling their validity checks, and one scheduled check resolving with the
answer of the filesystem at that moment. -/
inductive StorageEvent where
  | add (interpreter : PartialPythonEnvironment)
  | addBlocking (interpreter : PartialPythonEnvironment)
      (environmentInfo : Option (List (String × String)))
  | enrich (i : Nat) (environmentInfo : Option (List (String × String)))
  | schedulePruneChecks
  | prunePartialCheck (i : Nat) (existsOnDisk : Bool)
  | pruneCompleteCheck (i : Nat) (existsOnDisk : Bool)
deriving DecidableEq, Repr

def stepStorage (norm : String → String) (st : StorageState) :
    StorageEvent → StorageState
  | .add interpreter => EnvironmentsStorage.addPartialInfo norm st interpreter
  | .addBlocking interpreter environmentInfo =>
    EnvironmentsStorage.addPartialInfoBlocking norm st interpreter environmentInfo
  | .enrich i environmentInfo =>
    match st.pendingEnrichments.get? i with
    | some pi =>
      let st1 := EnvironmentsStorage.storeCompleteInfo st pi.1 pi.2 environmentInfo
      { st1 with pendingEnrichments := st.pendingEnrichments.eraseIdx i }
    | none => st
  | .schedulePruneChecks =>
    { st with
      pendingPartialChecks :=
        st.pendingPartialChecks ++ mapKeys st.partialInfoEnvironmentMap,
      pendingCompleteChecks :=
        st.pendingCompleteChecks ++ mapKeys st.completeInfoEnvironmentMap }
  | .prunePartialCheck i existsOnDisk =>
    match st.pendingPartialChecks.get? i with
    | some k =>
      let st1 :=
        if existsOnDisk then st
        else { st with
               partialInfoEnvironmentMap := mapDelete st.partialInfoEnvironmentMap k }
      { st1 with pendingPartialChecks := st.pendingPartialChecks.eraseIdx i }
    | none => st
  | .pruneCompleteCheck i existsOnDisk =>
    match st.pendingCompleteChecks.get? i with
    | some k =>
      let st1 :=
        if existsOnDisk then st
        else { st with
               completeInfoEnvironmentMap := mapDelete st.completeInfoEnvironmentMap k }
      { st1 with pendingCompleteChecks := st.pendingCompleteChecks.eraseIdx i }
    | none => st

def runTraceFrom (norm : String → String) (init : StorageState)
    (tr : List StorageEvent) : StorageState :=
  tr.foldl (stepStorage norm) init

/-- The constructor: the maps are rehydrated from persistent state and the
deferred is resolved with true exactly when at least one map is non-empty. -/
def initialStorage (seedPartialMap seedCompleteMap : StrMap PartialPythonEnvironment) :
    StorageState :=
  { partialInfoEnvironmentMap := seedPartialMap,
    completeInfoEnvironmentMap := seedCompleteMap,
    didEffortToPopulateStorageSucceed :=
      if 0 < seedPartialMap.length ∨ 0 < seedCompleteMap.length then some true else none,
    pendingEnrichments := [],
    pendingPartialChecks := [],
    pendingCompleteChecks := [] }

/-- The list getEnvironments computes once past the race: the merged union of
the partial and complete map values. -/
def getEnvironmentsResult (st : StorageState) : List PartialPythonEnvironment :=
  mergeEnvironments
    (mapValues st.partialInfoEnvironmentMap ++ mapValues st.completeInfoEnvironmentMap)

/-- The Promise.race in getEnvironments: the method proceeds to read the maps
once the deferred has resolved or the all-environments-stored continuation has
run (the latter resolves the deferred with false when it was still pending). -/
def racePassed (st : StorageState) (allStoredResolved : Bool) : Bool :=
  st.didEffortToPopulateStorageSucceed.isSome || allStoredResolved

/-- The map part of the storage invariant: each map holds at most one record
per path, a path with a complete record has no partial record, and every
stored record carries the path it is keyed under. -/
def MapsInv (st : StorageState) : Prop :=
  (mapKeys st.partialInfoEnvironmentMap).Nodup ∧
  (mapKeys st.completeInfoEnvironmentMap).Nodup ∧
  (∀ k, mapHas st.completeInfoEnvironmentMap k = true →
        mapHas st.partialInfoEnvironmentMap k = false) ∧
  (∀ kv ∈ st.partialInfoEnvironmentMap, kv.2.path = kv.1) ∧
  (∀ kv ∈ st.completeInfoEnvironmentMap, kv.2.path = kv.1)

/-- The storage invariant: MapsInv, and while the deferred is pending the
storage is empty (no record was ever added and no enrichment is
outstanding). -/
def StorageInv (st : StorageState) : Prop :=
  MapsInv st ∧
  (st.didEffortToPopulateStorageSucceed = none →
    st.partialInfoEnvironmentMap = [] ∧ st.completeInfoEnvironmentMap = [] ∧
      st.pendingEnrichments = [])

theorem resolveDeferred_isSome (d : Option Bool) (v : Bool) :
    (resolveDeferred d v).isSome = true := by
  cases d <;> rfl

theorem valuesMatch_set {m : StrMap PartialPythonEnvironment} {k : String}
    {v : PartialPythonEnvironment}
    (hm : ∀ kv ∈ m, kv.2.path = kv.1) (hv : v.path = k) :
    ∀ kv ∈ mapSet m k v, kv.2.path = kv.1 := by
  intro kv hkv
  simp only [mapSet] at hkv
  by_cases hhas : mapHas m k = true
  · rw [if_pos hhas] at hkv
    obtain ⟨e, he, hekv⟩ := List.mem_map.mp hkv
    by_cases hek : e.1 = k
    · rw [if_pos hek] at hekv
      rw [← hekv]
      exact hv
    · rw [if_neg hek] at hekv
      rw [← hekv]
      exact hm e he
  · rw [if_neg hhas] at hkv
    rcases List.mem_append.mp hkv with h | h
    · exact hm kv h
    · simp only [List.mem_singleton] at h
      rw [h]
      exact hv

theorem valuesMatch_delete {m : StrMap PartialPythonEnvironment} {k : String}
    (hm : ∀ kv ∈ m, kv.2.path = kv.1) :
    ∀ kv ∈ mapDelete m k, kv.2.path = kv.1 := by
  intro kv hkv
  exact hm kv (List.mem_of_mem_filter hkv)

theorem mapHas_delete_of_false {α : Type} {m : StrMap α} {k j : String}
    (h : mapHas m j = false) : mapHas (mapDelete m k) j = false := by
  cases hh : mapHas (mapDelete m k) j with
  | false => rfl
  | true => exact absurd (mapHas_delete_le hh) (by simp [h])

/-- The full effect of the enrichment continuation on the state: the partial
entry for the path is removed (removing an absent entry is a no-op) and, when
the probe succeeded, the merged complete record is stored. Everything else is
untouched. -/
theorem storeCompleteInfo_spec (st : StorageState) (p : String)
    (interpreter : PartialPythonEnvironment)
    (info : Option (List (String × String))) :
    EnvironmentsStorage.storeCompleteInfo st p interpreter info =
      { st with
        partialInfoEnvironmentMap := mapDelete st.partialInfoEnvironmentMap p,
        completeInfoEnvironmentMap :=
          match info with
          | some fields =>
            mapSet st.completeInfoEnvironmentMap p
              ((mergeEnvironments [{ path := p, fields := fields }, interpreter]).headD
                interpreter)
          | none => st.completeInfoEnvironmentMap } := by
  unfold EnvironmentsStorage.storeCompleteInfo
  cases info with
  | none =>
    by_cases hhas : mapHas st.partialInfoEnvironmentMap p = true
    · simp only [if_pos hhas]
    · simp only [if_neg hhas]
      rw [mapDelete_of_not_has (by simpa using hhas)]
  | some fields =>
    by_cases hhas : mapHas st.partialInfoEnvironmentMap p = true
    · simp only [if_pos hhas]
    · simp only [if_neg hhas]
      rw [mapDelete_of_not_has (by simpa using hhas)]

theorem storeCompleteInfo_mapsInv (st : StorageState) (p : String)
    (interpreter : PartialPythonEnvironment)
    (info : Option (List (String × String))) (h : MapsInv st) :
    MapsInv (EnvironmentsStorage.storeCompleteInfo st p interpreter info) := by
  obtain ⟨h1, h2, h3, h4, h5⟩ := h
  rw [storeCompleteInfo_spec]
  cases info with
  | none =>
    refine ⟨mapKeys_delete_nodup p h1, h2, ?_, valuesMatch_delete h4, h5⟩
    intro k hk
    exact mapHas_delete_of_false (h3 k hk)
  | some fields =>
    refine ⟨mapKeys_delete_nodup p h1, mapKeys_set_nodup p _ h2, ?_,
      valuesMatch_delete h4, ?_⟩
    · intro k hk
      rw [mapHas_set] at hk
      rcases Bool.or_eq_true_iff.mp hk with hkp | hkc
      · rw [decide_eq_true_eq] at hkp
        rw [hkp]
        exact mapHas_delete_self _ _
      · exact mapHas_delete_of_false (h3 k hkc)
    · exact valuesMatch_set h5 (mergeEnvironments_pair_headD_path _ _ _)

theorem addPartialInfo_inv (norm : String → String) (st : StorageState)
    (interpreter : PartialPythonEnvironment) (h : StorageInv st) :
    StorageInv (EnvironmentsStorage.addPartialInfo norm st interpreter) := by
  obtain ⟨⟨h1, h2, h3, h4, h5⟩, h6⟩ := h
  unfold EnvironmentsStorage.addPartialInfo
  by_cases hc : mapHas st.completeInfoEnvironmentMap (norm interpreter.path) = true
  · rw [if_pos hc]
    exact ⟨⟨h1, h2, h3, h4, h5⟩, h6⟩
  · rw [if_neg hc]
    constructor
    · refine ⟨mapKeys_set_nodup _ _ h1, h2, ?_, ?_, h5⟩
      · intro k hk
        have hkp : ¬k = norm interpreter.path := fun he => hc (he ▸ hk)
        rw [mapHas_set]
        rw [show decide (k = norm interpreter.path) = false from by simp [hkp]]
        rw [Bool.false_or]
        exact h3 k hk
      · apply valuesMatch_set h4
        cases hget : mapGet st.partialInfoEnvironmentMap (norm interpreter.path) with
        | none => simp [hget]
        | some storedValue =>
          simp only [hget]
          rw [mergeEnvironments_pair_headD_path]
          exact h4 _ (mapGet_eq_some hget)
    · intro hnone
      exact absurd hnone (by simp [resolveDeferred_isSome, ← Option.isSome_iff_ne_none,
        Option.ne_none_iff_isSome, resolveDeferred_isSome])

theorem addPartialInfoBlocking_inv (norm : String → String) (st : StorageState)
    (interpreter : PartialPythonEnvironment)
    (info : Option (List (String × String))) (h : StorageInv st) :
    StorageInv (EnvironmentsStorage.addPartialInfoBlocking norm st interpreter info) := by
  obtain ⟨hm, h6⟩ := h
  unfold EnvironmentsStorage.addPartialInfoBlocking
  by_cases hc : mapHas st.completeInfoEnvironmentMap (norm interpreter.path) = true
  · rw [if_pos hc]
    exact ⟨hm, h6⟩
  · rw [if_neg hc]
    constructor
    · exact storeCompleteInfo_mapsInv st _ _ info hm
    · intro hnone
      exact absurd hnone (by simp [Option.ne_none_iff_isSome, resolveDeferred_isSome])

theorem stepStorage_inv (norm : String → String) (st : StorageState)
    (e : StorageEvent) (h : StorageInv st) : StorageInv (stepStorage norm st e) := by
  obtain ⟨hm, h6⟩ := h
  cases e with
  | add interpreter => exact addPartialInfo_inv norm st interpreter ⟨hm, h6⟩
  | addBlocking interpreter info =>
    exact addPartialInfoBlocking_inv norm st interpreter info ⟨hm, h6⟩
  | enrich i info =>
    simp only [stepStorage]
    cases hget : st.pendingEnrichments.get? i with
    | none => exact ⟨hm, h6⟩
    | some pi =>
      constructor
      · exact storeCompleteInfo_mapsInv st pi.1 pi.2 info hm
      · intro hnone
        have hs : st.didEffortToPopulateStorageSucceed = none := by
          have hsucc := congrArg StorageState.didEffortToPopulateStorageSucceed
            (storeCompleteInfo_spec st pi.1 pi.2 info)
          exact hsucc ▸ hnone
        obtain ⟨-, -, hpend⟩ := h6 hs
        rw [hpend] at hget
        simp at hget
  | schedulePruneChecks =>
    refine ⟨hm, ?_⟩
    intro hnone
    obtain ⟨ha, hb, hc2⟩ := h6 hnone
    exact ⟨ha, hb, hc2⟩
  | prunePartialCheck i existsOnDisk =>
    obtain ⟨h1, h2, h3, h4, h5⟩ := hm
    simp only [stepStorage]
    cases hget : st.pendingPartialChecks.get? i with
    | none => exact ⟨⟨h1, h2, h3, h4, h5⟩, h6⟩
    | some k =>
      cases existsOnDisk with
      | true =>
        simp only [if_pos rfl]
        refine ⟨⟨h1, h2, h3, h4, h5⟩, ?_⟩
        intro hnone
        obtain ⟨ha, hb, hc2⟩ := h6 hnone
        exact ⟨ha, hb, hc2⟩
      | false =>
        simp only [Bool.false_eq_true, if_neg (by simp : ¬False)]
        refine ⟨⟨mapKeys_delete_nodup k h1, h2, ?_, valuesMatch_delete h4, h5⟩, ?_⟩
        · intro j hj
          exact mapHas_delete_of_false (h3 j hj)
        · intro hnone
          obtain ⟨ha, hb, hc2⟩ := h6 hnone
          exact ⟨by rw [ha]; rfl, hb, hc2⟩
  | pruneCompleteCheck i existsOnDisk =>
    obtain ⟨h1, h2, h3, h4, h5⟩ := hm
    simp only [stepStorage]
    cases hget : st.pendingCompleteChecks.get? i with
    | none => exact ⟨⟨h1, h2, h3, h4, h5⟩, h6⟩
    | some k =>
      cases existsOnDisk with
      | true =>
        simp only [if_pos rfl]
        refine ⟨⟨h1, h2, h3, h4, h5⟩, ?_⟩
        intro hnone
        obtain ⟨ha, hb, hc2⟩ := h6 hnone
        exact ⟨ha, hb, hc2⟩
      | false =>
        simp only [Bool.false_eq_true, if_neg (by simp : ¬False)]
        refine ⟨⟨h1, mapKeys_delete_nodup k h2, ?_, h4, valuesMatch_delete h5⟩, ?_⟩
        · intro j hj
          exact h3 j (mapHas_delete_le hj)
        · intro hnone
          obtain ⟨ha, hb, hc2⟩ := h6 hnone
          exact ⟨ha, by rw [hb]; rfl, hc2⟩

theorem runTraceFrom_inv (norm : String → String) (init : StorageState)
    (tr : List StorageEvent) (h : StorageInv init) :
    StorageInv (runTraceFrom norm init tr) := by
  induction tr generalizing init with
  | nil => exact h
  | cons e es ih =>
    exact ih (stepStorage norm init e) (stepStorage_inv norm init e h)

theorem stepStorage_succeeded_isSome (norm : String → String) (st : StorageState)
    (e : StorageEvent) (h : st.didEffortToPopulateStorageSucceed.isSome = true) :
    (stepStorage norm st e).didEffortToPopulateStorageSucceed.isSome = true := by
  cases e with
  | add interpreter =>
    simp only [stepStorage]
    unfold EnvironmentsStorage.addPartialInfo
    by_cases hc : mapHas st.completeInfoEnvironmentMap (norm interpreter.path) = true
    · rw [if_pos hc]; exact h
    · rw [if_neg hc]; exact resolveDeferred_isSome _ _
  | addBlocking interpreter info =>
    simp only [stepStorage]
    unfold EnvironmentsStorage.addPartialInfoBlocking
    by_cases hc : mapHas st.completeInfoEnvironmentMap (norm interpreter.path) = true
    · rw [if_pos hc]; exact h
    · rw [if_neg hc]; exact resolveDeferred_isSome _ _
  | enrich i info =>
    simp only [stepStorage]
    cases hget : st.pendingEnrichments.get? i with
    | none => exact h
    | some pi =>
      have hsucc := congrArg StorageState.didEffortToPopulateStorageSucceed
        (storeCompleteInfo_spec st pi.1 pi.2 info)
      simp only []
      rw [show ({ EnvironmentsStorage.storeCompleteInfo st pi.1 pi.2 info with
        pendingEnrichments := st.pendingEnrichments.eraseIdx i } :
          StorageState).didEffortToPopulateStorageSucceed =
        (EnvironmentsStorage.storeCompleteInfo st pi.1 pi.2
          info).didEffortToPopulateStorageSucceed from rfl, hsucc]
      exact h
  | schedulePruneChecks => exact h
  | prunePartialCheck i existsOnDisk =>
    simp only [stepStorage]
    cases hget : st.pendingPartialChecks.get? i with
    | none => exact h
    | some k => cases existsOnDisk <;> simp <;> exact h
  | pruneCompleteCheck i existsOnDisk =>
    simp only [stepStorage]
    cases hget : st.pendingCompleteChecks.get? i with
    | none => exact h
    | some k => cases existsOnDisk <;> simp <;> exact h

theorem runTraceFrom_succeeded_mono (norm : String → String) (init : StorageState)
    (tr : List StorageEvent)
    (h : init.didEffortToPopulateStorageSucceed.isSome = true) :
    (runTraceFrom norm init tr).didEffortToPopulateStorageSucceed.isSome = true := by
  induction tr generalizing init with
  | nil => exact h
  | cons e es ih =>
    exact ih (stepStorage norm init e) (stepStorage_succeeded_isSome norm init e h)

theorem addPartialInfo_succeeded (norm : String → String) (st : StorageState)
    (interpreter : PartialPythonEnvironment) (h : StorageInv st) :
    (EnvironmentsStorage.addPartialInfo norm st
      interpreter).didEffortToPopulateStorageSucceed.isSome = true := by
  obtain ⟨-, h6⟩ := h
  unfold EnvironmentsStorage.addPartialInfo
  by_cases hc : mapHas st.completeInfoEnvironmentMap (norm interpreter.path) = true
  · rw [if_pos hc]
    cases hs : st.didEffortToPopulateStorageSucceed with
    | some v => rfl
    | none =>
      obtain ⟨-, hcomp, -⟩ := h6 hs
      rw [hcomp] at hc
      simp [mapHas] at hc
  · rw [if_neg hc]
    exact resolveDeferred_isSome _ _

theorem addPartialInfoBlocking_succeeded (norm : String → String) (st : StorageState)
    (interpreter : PartialPythonEnvironment)
    (info : Option (List (String × String))) (h : StorageInv st) :
    (EnvironmentsStorage.addPartialInfoBlocking norm st interpreter
      info).didEffortToPopulateStorageSucceed.isSome = true := by
  obtain ⟨-, h6⟩ := h
  unfold EnvironmentsStorage.addPartialInfoBlocking
  by_cases hc : mapHas st.completeInfoEnvironmentMap (norm interpreter.path) = true
  · rw [if_pos hc]
    cases hs : st.didEffortToPopulateStorageSucceed with
    | some v => rfl
    | none =>
      obtain ⟨-, hcomp, -⟩ := h6 hs
      rw [hcomp] at hc
      simp [mapHas] at hc
  · rw [if_neg hc]
    exact resolveDeferred_isSome _ _

theorem runTraceFrom_add_succeeded (norm : String → String) (init : StorageState)
    (tr : List StorageEvent) (interpreter : PartialPythonEnvironment)
    (hinv : StorageInv init) (hmem : StorageEvent.add interpreter ∈ tr) :
    (runTraceFrom norm init tr).didEffortToPopulateStorageSucceed.isSome = true := by
  induction tr generalizing init with
  | nil => cases hmem
  | cons e es ih =>
    rcases List.mem_cons.mp hmem with heq | hmem2
    · have hstep : (stepStorage norm init e).didEffortToPopulateStorageSucceed.isSome
          = true := by
        rw [← heq]
        exact addPartialInfo_succeeded norm init interpreter hinv
      exact runTraceFrom_succeeded_mono norm _ es hstep
    · exact ih (stepStorage norm init e) (stepStorage_inv norm init e hinv) hmem2

theorem runTraceFrom_addBlocking_succeeded (norm : String → String)
    (init : StorageState) (tr : List StorageEvent)
    (interpreter : PartialPythonEnvironment)
    (info : Option (List (String × String)))
    (hinv : StorageInv init) (hmem : StorageEvent.addBlocking interpreter info ∈ tr) :
    (runTraceFrom norm init tr).didEffortToPopulateStorageSucceed.isSome = true := by
  induction tr generalizing init with
  | nil => cases hmem
  | cons e es ih =>
    rcases List.mem_cons.mp hmem with heq | hmem2
    · have hstep : (stepStorage norm init e).didEffortToPopulateStorageSucceed.isSome
          = true := by
        rw [← heq]
        exact addPartialInfoBlocking_succeeded norm init interpreter info hinv
      exact runTraceFrom_succeeded_mono norm _ es hstep
    · exact ih (stepStorage norm init e) (stepStorage_inv norm init e hinv) hmem2

theorem stepStorage_succeeded_of_not_add (norm : String → String)
    (st : StorageState) (e : StorageEvent)
    (hadd : ∀ interpreter, e ≠ StorageEvent.add interpreter)
    (hblock : ∀ interpreter info, e ≠ StorageEvent.addBlocking interpreter info) :
    (stepStorage norm st e).didEffortToPopulateStorageSucceed =
      st.didEffortToPopulateStorageSucceed := by
  cases e with
  | add interpreter => exact absurd rfl (hadd interpreter)
  | addBlocking interpreter info => exact absurd rfl (hblock interpreter info)
  | enrich i info =>
    simp only [stepStorage]
    cases hget : st.pendingEnrichments.get? i with
    | none => rfl
    | some pi =>
      show (EnvironmentsStorage.storeCompleteInfo st pi.1 pi.2
          info).didEffortToPopulateStorageSucceed
        = st.didEffortToPopulateStorageSucceed
      rw [storeCompleteInfo_spec]
  | schedulePruneChecks => rfl
  | prunePartialCheck i existsOnDisk =>
    simp only [stepStorage]
    cases hget : st.pendingPartialChecks.get? i with
    | none => rfl
    | some k => cases existsOnDisk <;> rfl
  | pruneCompleteCheck i existsOnDisk =>
    simp only [stepStorage]
    cases hget : st.pendingCompleteChecks.get? i with
    | none => rfl
    | some k => cases existsOnDisk <;> rfl

/-- Over a trace holding no addPartialInfo call of either kind, the deferred
is never resolved by the storage: nothing but an add touches it. -/
theorem runTraceFrom_succeeded_of_no_add (norm : String → String)
    (init : StorageState) (tr : List StorageEvent)
    (hadd : ∀ interpreter, StorageEvent.add interpreter ∉ tr)
    (hblock : ∀ interpreter info, StorageEvent.addBlocking interpreter info ∉ tr) :
    (runTraceFrom norm init tr).didEffortToPopulateStorageSucceed =
      init.didEffortToPopulateStorageSucceed := by
  induction tr generalizing init with
  | nil => rfl
  | cons e es ih =>
    have hstep := stepStorage_succeeded_of_not_add norm init e
      (fun interpreter he => hadd interpreter
        (by rw [← he]; exact List.mem_cons_self e es))
      (fun interpreter info he => hblock interpreter info
        (by rw [← he]; exact List.mem_cons_self e es))
    have htail := ih (stepStorage norm init e)
      (fun interpreter hm => hadd interpreter (List.mem_cons_of_mem e hm))
      (fun interpreter info hm => hblock interpreter info (List.mem_cons_of_mem e hm))
    rw [show runTraceFrom norm init (e :: es)
        = runTraceFrom norm (stepStorage norm init e) es from rfl]
    rw [htail]
    exact hstep

theorem getEnvironmentsResult_eq_union (st : StorageState) (h : MapsInv st) :
    getEnvironmentsResult st =
      mapValues st.partialInfoEnvironmentMap ++
        mapValues st.completeInfoEnvironmentMap := by
  obtain ⟨h1, h2, h3, h4, h5⟩ := h
  apply mergeEnvironments_of_nodup
  have e1 : (mapValues st.partialInfoEnvironmentMap).map PartialPythonEnvironment.path
      = mapKeys st.partialInfoEnvironmentMap := by
    simp only [mapValues, mapKeys, List.map_map]
    exact List.map_congr_left h4
  have e2 : (mapValues st.completeInfoEnvironmentMap).map PartialPythonEnvironment.path
      = mapKeys st.completeInfoEnvironmentMap := by
    simp only [mapValues, mapKeys, List.map_map]
    exact List.map_congr_left h5
  rw [List.map_append, e1, e2, List.nodup_append]
  refine ⟨h1, h2, ?_⟩
  intro k hk1 hk2
  have hf := h3 k ((mapHas_iff _ _).mpr hk2)
  rw [mapHas_false_iff] at hf
  exact hf hk1

theorem getEnvironmentsResult_eq_nil_iff (st : StorageState) :
    getEnvironmentsResult st = [] ↔
      st.partialInfoEnvironmentMap = [] ∧ st.completeInfoEnvironmentMap = [] := by
  rw [getEnvironmentsResult, mergeEnvironments_eq_nil_iff, List.append_eq_nil]
  simp [mapValues]

/-- Metadata probed from an interpreter (version, architecture, type); the
storage-facing fields are abstracted as named field values. -/
structure EnvironmentInfo where
  interpreterPath : String
  fields : List (String × String)
deriving DecidableEq, Repr

namespace EnvironmentInfoService

inductive QueuePriority where
  | Default
  | High
deriving DecidableEq, Repr

structure ServiceState where
  cache : StrMap EnvironmentInfo
deriving DecidableEq, Repr

/-- One call to EnvironmentInfoService.getEnvironmentInfo. probeResult is the
value the worker pool task would resolve with if a probe ran during this call
(none models a spawn or parse failure, per spec 4.2 a renewed addToQueue runs
the probe again, the pool source being outside this snapshot). The Bool of
the result records whether addToQueue was called, that is whether a probe ran. -/
def getEnvironmentInfo (st : ServiceState) (interpreterPath : String)
    (priority : Option QueuePriority) (probeResult : Option EnvironmentInfo) :
    Option EnvironmentInfo × ServiceState × Bool :=
  match mapGet st.cache interpreterPath with
  | some result => (some result, st, false)
  | none =>
    let result :=
      match priority with
      | some QueuePriority.High => probeResult
      | _ => probeResult
    match result with
    | some r => (some r, { cache := mapSet st.cache interpreterPath r }, true)
    | none => (none, st, true)

end EnvironmentInfoService

def bestStep {α : Type} (score : α → Nat) (acc : Nat × Option α) (x : α) :
    Nat × Option α :=
  if score x > acc.1 then (score x, some x) else acc

/-- The selection loop shared by findSpecMatch and getUsableJupyterPython:
bestScore starts at 0 and a candidate replaces the current best only when its
score is strictly greater, so equal scores keep the earlier candidate. -/
def foldBest {α : Type} (score : α → Nat) (l : List α) : Nat × Option α :=
  l.foldl (bestStep score) (0, none)

theorem bestStep_foldl_spec {α : Type} (score : α → Nat) :
    ∀ (l : List α) (b : Nat) (cur : Option α),
      (l.foldl (bestStep score) (b, cur) = (b, cur) ∧ ∀ y ∈ l, score y ≤ b) ∨
      (∃ pre x post, l = pre ++ x :: post ∧
        l.foldl (bestStep score) (b, cur) = (score x, some x) ∧
        b < score x ∧ (∀ y ∈ pre, score y < score x) ∧
        (∀ y ∈ post, score y ≤ score x)) := by
  intro l
  induction l with
  | nil =>
    intro b cur
    left
    exact ⟨rfl, by simp⟩
  | cons a as ih =>
    intro b cur
    by_cases ha : score a > b
    · rw [List.foldl_cons, show bestStep score (b, cur) a = (score a, some a) from by
        simp [bestStep, ha]]
      rcases ih (score a) (some a) with ⟨heq, hall⟩ |
        ⟨pre, x, post, hsplit, hres, hlt, hpre, hpost⟩
      · right
        exact ⟨[], a, as, by simp, heq, ha, by simp, hall⟩
      · right
        refine ⟨a :: pre, x, post, by rw [hsplit]; rfl, hres, ?_, ?_, hpost⟩
        · exact Nat.lt_trans ha hlt
        · intro y hy
          rcases List.mem_cons.mp hy with rfl | hy2
          · exact hlt
          · exact hpre y hy2
    · rw [List.foldl_cons, show bestStep score (b, cur) a = (b, cur) from by
        simp [bestStep, ha]]
      push_neg at ha
      rcases ih b cur with ⟨heq, hall⟩ |
        ⟨pre, x, post, hsplit, hres, hlt, hpre, hpost⟩
      · left
        refine ⟨heq, ?_⟩
        intro y hy
        rcases List.mem_cons.mp hy with rfl | hy2
        · exact ha
        · exact hall y hy2
      · right
        refine ⟨a :: pre, x, post, by rw [hsplit]; rfl, hres, hlt, ?_, hpost⟩
        intro y hy
        rcases List.mem_cons.mp hy with rfl | hy2
        · exact Nat.lt_of_le_of_lt ha hlt
        · exact hpre y hy2

theorem foldBest_eq_some {α : Type} (score : α → Nat) (l : List α) (x : α)
    (h : (foldBest score l).2 = some x) :
    ∃ pre post, l = pre ++ x :: post ∧ 0 < score x ∧
      score x = (foldBest score l).1 ∧
      (∀ y ∈ pre, score y < score x) ∧ (∀ y ∈ post, score y ≤ score x) := by
  rcases bestStep_foldl_spec score l 0 none with ⟨heq, -⟩ |
    ⟨pre, x2, post, hsplit, hres, hlt, hpre, hpost⟩
  · rw [foldBest, heq] at h
    cases h
  · rw [foldBest, hres] at h
    simp only [Option.some.injEq] at h
    subst h
    exact ⟨pre, post, hsplit, hlt, by rw [foldBest, hres], hpre, hpost⟩

theorem foldBest_eq_none {α : Type} (score : α → Nat) (l : List α)
    (h : (foldBest score l).2 = none) : ∀ y ∈ l, score y = 0 := by
  rcases bestStep_foldl_spec score l 0 none with ⟨heq, hall⟩ |
    ⟨pre, x, post, hsplit, hres, hlt, hpre, hpost⟩
  · intro y hy
    exact Nat.le_zero.mp (hall y hy)
  · rw [foldBest, hres] at h
    cases h

theorem foldBest_none_of_all_zero {α : Type} (score : α → Nat) (l : List α)
    (h : ∀ y ∈ l, score y = 0) : foldBest score l = (0, none) := by
  rcases bestStep_foldl_spec score l 0 none with ⟨heq, -⟩ |
    ⟨pre, x, post, hsplit, hres, hlt, hpre, hpost⟩
  · exact heq
  · exfalso
    have hx := h x (by rw [hsplit]; simp)
    omega

/-- ASCII lower-casing, modelling toLocaleLowerCase (every language name and
path word compared in the source is ASCII). -/
def toLowerAscii (s : String) : String :=
  String.mk (s.data.map (fun c =>
    if 65 ≤ c.toNat ∧ c.toNat ≤ 90 then Char.ofNat (c.toNat + 32) else c))

/-- JavaScript array indexing: out of range yields undefined. The source
compares version components with strict equality, under which two undefined
values are equal, which Option equality mirrors. -/
def jsIdx (l : List Int) (i : Nat) : Option Int := l.get? i

/-- First match of the regular expression \D+(\d+) against a string: the full
match (a greedy run of non-digits followed by a greedy run of digits) together
with the first capture group (the digits). none when the string has no digit
preceded by a non-digit. -/
def execNameRegexAux : List Char → Option (String × String)
  | [] => none
  | c :: rest =>
    if c.isDigit then execNameRegexAux rest
    else
      let afterRun := (c :: rest).dropWhile (fun d => !d.isDigit)
      match afterRun with
      | [] => none
      | _ =>
        let nonDigits := (c :: rest).takeWhile (fun d => !d.isDigit)
        let digits := afterRun.takeWhile (fun d => d.isDigit)
        some (String.mk (nonDigits ++ digits), String.mk digits)

def execNameRegex (s : String) : Option (String × String) :=
  execNameRegexAux s.data

def digitsToNat (l : List Char) : Nat :=
  l.foldl (fun acc c => acc * 10 + (c.toNat - Char.toNat (Char.ofNat 48))) 0

/-- JavaScript parseInt with radix 10: skip leading whitespace, read an
optional sign, then a run of decimal digits; NaN (modelled as none) when no
digit is read. -/
def parseIntJs (s : String) : Option Int :=
  let chars := s.data.dropWhile (fun c =>
    c = Char.ofNat 32 ∨ c = Char.ofNat 9 ∨ c = Char.ofNat 10 ∨ c = Char.ofNat 13)
  let signAndRest : Int × List Char :=
    match chars with
    | c :: r =>
      if c = Char.ofNat 45 then (-1, r)
      else if c = Char.ofNat 43 then (1, r) else (1, chars)
    | [] => (1, [])
  let digits := signAndRest.2.takeWhile Char.isDigit
  if digits.isEmpty then none
  else some (signAndRest.1 * Int.ofNat (digitsToNat digits))

namespace JupyterExecution

/-- A kernel spec as findSpecMatch sees it: declared name, language, and the
first argv entry as path. -/
structure IJupyterKernelSpec where
  name : String
  language : String
  path : String
deriving DecidableEq, Repr

/-- The information of the currently selected python
(pythonService.getInterpreterInformation): its path and optional
version_info tuple. -/
structure InterpreterInformation where
  path : String
  version_info : Option (List Int)
deriving DecidableEq, Repr

/-- The score findSpecMatch gives one candidate spec. pathExists models the
fs-extra pathExists probe; getInterpreterDetails the interpreter details
lookup for the spec path, collapsed to the version_info tuple (none when the
details or their version_info are missing). -/
def specScore (pathExists : String → Bool)
    (getInterpreterDetails : String → Option (List Int))
    (info : Option InterpreterInformation) (spec : IJupyterKernelSpec) : Nat :=
  let pathPoints : Nat :=
    match info with
    | some i => if 0 < spec.path.length ∧ spec.path = i.path then 10 else 0
    | none => 0
  if toLowerAscii spec.language = "python" then
    let versionPoints : Nat :=
      match info with
      | some i =>
        match i.version_info with
        | some iv =>
          if 0 < spec.path.length ∧ pathExists spec.path = true then
            match getInterpreterDetails spec.path with
            | some dv =>
              if jsIdx dv 0 = jsIdx iv 0 then
                4 + (if jsIdx dv 1 = jsIdx iv 1 then
                       2 + (if jsIdx dv 2 = jsIdx iv 2 then 1 else 0)
                     else 0)
              else 0
            | none => 0
          else if toLowerAscii spec.path = "python" then
            match execNameRegex spec.name with
            | some fullAndGroup =>
              match parseIntJs fullAndGroup.1 with
              | some nameVersion =>
                if nameVersion ≠ 0 ∧ some nameVersion = jsIdx iv 0 then 4 else 0
              | none => 0
            | none => 0
          else 0
        | none => 0
      | none => 0
    pathPoints + 1 + versionPoints
  else pathPoints

/-- findSpecMatch: score every spec, keep the strictly best (first seen wins
ties), and fall back to the first enumerated spec when nothing scored above
zero. -/
def findSpecMatch (pathExists : String → Bool)
    (getInterpreterDetails : String → Option (List Int))
    (info : Option InterpreterInformation)
    (specs : List IJupyterKernelSpec) : Option IJupyterKernelSpec :=
  match (foldBest (specScore pathExists getInterpreterDetails info) specs).2 with
  | some bestSpec => some bestSpec
  | none => specs.head?

/-- An interpreter as the interpreter service reports it: path, version_info
tuple (major, minor, patch, build) and environment type. -/
structure PythonInterpreter where
  path : String
  version_info : List Int
  type : String
deriving DecidableEq, Repr

/-- The score the getUsableJupyterPython loop gives one candidate: zero for
the active interpreter itself, zero without the ipykernel module, and
otherwise one point for the module, the nested version points and one point
for a matching environment type. -/
def usableScore (moduleExists : PythonInterpreter → Bool)
    (active cand : PythonInterpreter) : Nat :=
  if cand = active then 0
  else if moduleExists cand then
    1 +
    (if jsIdx cand.version_info 0 = jsIdx active.version_info 0 then
       32 + (if jsIdx cand.version_info 1 = jsIdx active.version_info 1 then
               16 + (if jsIdx cand.version_info 2 = jsIdx active.version_info 2 then
                       8 + (if jsIdx cand.version_info 3 = jsIdx active.version_info 3
                            then 4 else 0)
                     else 0)
             else 0)
     else 0) +
    (if cand.type = active.type then 1 else 0)
  else 0

/-- The scoring of the claim read literally: module presence, version matches
and environment-type match each contribute independently (only the version
points nest among themselves). -/
def claimUsableScore (moduleExists : PythonInterpreter → Bool)
    (active cand : PythonInterpreter) : Nat :=
  (if moduleExists cand then 1 else 0) +
  (if jsIdx cand.version_info 0 = jsIdx active.version_info 0 then
     32 + (if jsIdx cand.version_info 1 = jsIdx active.version_info 1 then
             16 + (if jsIdx cand.version_info 2 = jsIdx active.version_info 2 then
                     8 + (if jsIdx cand.version_info 3 = jsIdx active.version_info 3
                          then 4 else 0)
                   else 0)
           else 0)
   else 0) +
  (if cand.type = active.type then 1 else 0)

/-- getUsableJupyterPython: return the memoized answer if any; require
notebook support; prefer the active interpreter when it has ipykernel;
otherwise run the strict-best loop over the known interpreters.
moduleExists models the doesModuleExist probe for ipykernel (false is also
what the probe answers for an undefined interpreter). -/
def getUsableJupyterPython (notebookSupported : Bool)
    (moduleExists : PythonInterpreter → Bool)
    (active : Option PythonInterpreter)
    (interpreters : List PythonInterpreter)
    (usablePythonInterpreter : Option PythonInterpreter) :
    Option PythonInterpreter :=
  match usablePythonInterpreter with
  | some u => some u
  | none =>
    if notebookSupported = false then none
    else
      match active with
      | some a =>
        if moduleExists a then some a
        else (foldBest (usableScore moduleExists a) interpreters).2
      | none => none

/-- A verified-runnable command: executable and required arguments. -/
structure JupyterCommand where
  exe : String
  args : List String
deriving DecidableEq, Repr

/-- The mutable fields of JupyterExecution the claims concern: the command
cache, the memoized jupyter path, the created spec files and the memoized
usable interpreter. -/
structure JupyterExecutionState where
  commands : StrMap JupyterCommand
  jupyterPath : Option String
  createdSpecs : List String
  usablePythonInterpreter : Option PythonInterpreter
deriving DecidableEq, Repr

def initialJupyterExecutionState : JupyterExecutionState :=
  { commands := [], jupyterPath := none, createdSpecs := [],
    usablePythonInterpreter := none }

/-- dispose: deletes the created spec files and clears
usablePythonInterpreter. The commands cache is left untouched, exactly as in
the source. -/
def dispose (st : JupyterExecutionState) : JupyterExecutionState :=
  { st with createdSpecs := [], usablePythonInterpreter := none }

/-- onSettingsChanged (wired to onDidChangeInterpreter) calls dispose. -/
def onSettingsChanged (st : JupyterExecutionState) : JupyterExecutionState :=
  dispose st

/-- The outcomes of the external probes findBestCommand relies on: the active
interpreter, the known interpreters, the doesModuleExist answer per command
and interpreter, the doesJupyterCommandExist answer, the known search paths,
the directory listings (an fsReaddirAsync error is caught and yields the
empty listing) and the CheckJupyterRegEx test on an entry basename. -/
structure ProbeEnv where
  activeInterpreter : Option PythonInterpreter
  interpreters : List PythonInterpreter
  moduleExists : String → PythonInterpreter → Bool
  jupyterCommandExists : String → Bool
  searchPaths : List String
  readDir : String → List String
  checkJupyterRegExTest : String → Bool

/-- findInterpreterCommand: when the module probe succeeds, build the command
(ipykernel is invoked as a plain module, every other tool through
-m jupyter). -/
def findInterpreterCommand (env : ProbeEnv) (command : String)
    (interpreter : PythonInterpreter) : Option JupyterCommand :=
  if env.moduleExists command interpreter then
    some { exe := interpreter.path,
           args := if command = "ipykernel" then ["-m", command]
                   else ["-m", "jupyter", command] }
  else none

/-- undefined and false are falsy, true is truthy. -/
def jsTruthy : Option Bool → Bool
  | some b => b
  | none => false

/-- The filter callback of lookForJupyterInDirectory: its block body evaluates
the regex test but has no return statement, so the callback yields
undefined. -/
def lookForJupyterFilterResult (env : ProbeEnv) (s : String) : Option Bool :=
  let _ := env.checkJupyterRegExTest s
  none

/-- lookForJupyterInDirectory: filter the directory listing by the callback
above (whose undefined result is falsy for every entry). -/
def lookForJupyterInDirectory (env : ProbeEnv) (pathToCheck : String) :
    List String :=
  (env.readDir pathToCheck).filter
    (fun s => jsTruthy (lookForJupyterFilterResult env s))

def searchPathsForJupyterGo (env : ProbeEnv) : List String → Option String
  | [] => none
  | d :: rest =>
    match lookForJupyterInDirectory env d with
    | [] => searchPathsForJupyterGo env rest
    | found :: _ => some found

/-- searchPathsForJupyter: walk the known search paths until a directory
yields a jupyter entry, memoizing the result in jupyterPath. -/
def searchPathsForJupyter (env : ProbeEnv) (st : JupyterExecutionState) :
    Option String × JupyterExecutionState :=
  match st.jupyterPath with
  | some p => (some p, st)
  | none =>
    let r := searchPathsForJupyterGo env env.searchPaths
    (r, { st with jupyterPath := r })

/-- findPathCommand: when the bare jupyter invocation works, search the known
paths for a jupyter executable and build a command from it. -/
def findPathCommand (env : ProbeEnv) (st : JupyterExecutionState)
    (command : String) : Option JupyterCommand × JupyterExecutionState :=
  if env.jupyterCommandExists command then
    match searchPathsForJupyter env st with
    | (some jupyterPath, st1) =>
      (some { exe := jupyterPath, args := [command] }, st1)
    | (none, st1) => (none, st1)
  else (none, st)

/-- The loop over the remaining interpreters: probe each interpreter other
than the active one until a command is found. -/
def findOtherInterpretersCommand (env : ProbeEnv) (command : String) :
    Option JupyterCommand :=
  env.interpreters.foldl
    (fun found interpreter =>
      match found with
      | some c => some c
      | none =>
        if env.activeInterpreter = some interpreter then none
        else findInterpreterCommand env command interpreter)
    none

/-- findBestCommand: answer from the cache when the command was resolved
before; otherwise probe the active interpreter, then the other interpreters,
then the search paths, and cache a success. The Bool of the result records
whether the probe sequence ran at all (false means the cached command was
returned without any execute call). -/
def findBestCommand (env : ProbeEnv) (st : JupyterExecutionState)
    (command : String) :
    Option JupyterCommand × JupyterExecutionState × Bool :=
  if mapHas st.commands command then (mapGet st.commands command, st, false)
  else
    let foundCurrent :=
      match env.activeInterpreter with
      | some current => findInterpreterCommand env command current
      | none => none
    let foundInterp :=
      match foundCurrent with
      | some c => some c
      | none => findOtherInterpretersCommand env command
    let foundAndState :=
      match foundInterp with
      | some c => (some c, st)
      | none => findPathCommand env st command
    match foundAndState with
    | (some c, st1) =>
      (some c, { st1 with commands := mapSet st1.commands command c }, true)
    | (none, st1) => (none, st1, true)

end JupyterExecution

/-! Concrete storage records used by the claim witnesses and
counterexamples. -/

def exampleDiscoveredRecord : PartialPythonEnvironment :=
  { path := "/usr/bin/python3", fields := [] }

def exampleCompleteRecord : PartialPythonEnvironment :=
  { path := "/envs/a/python", fields := [("version", "3.8.3")] }

def exampleLateRecord : PartialPythonEnvironment :=
  { path := "/envs/a/python", fields := [] }

def seedPartialRecord : PartialPythonEnvironment :=
  { path := "/env/python", fields := [] }

def deadRecord : PartialPythonEnvironment :=
  { path := "/dead/python", fields := [] }

theorem storageInv_initial_empty : StorageInv (initialStorage [] []) := by
  refine ⟨⟨?_, ?_, ?_, ?_, ?_⟩, ?_⟩ <;> simp [initialStorage, mapKeys, mapHas]

theorem storageInv_seed_complete :
    StorageInv (initialStorage [] [("/envs/a/python", exampleCompleteRecord)]) := by
  refine ⟨⟨?_, ?_, ?_, ?_, ?_⟩, ?_⟩
  · simp [initialStorage, mapKeys]
  · simp [initialStorage, mapKeys]
  · intro k hk
    simp [initialStorage, mapHas]
  · simp [initialStorage]
  · intro kv hkv
    simp only [initialStorage, List.mem_singleton] at hkv
    rw [hkv]
    rfl
  · intro hnone
    simp [initialStorage] at hnone

theorem storageInv_seed_partial :
    StorageInv (initialStorage [("/env/python", seedPartialRecord)] []) := by
  refine ⟨⟨?_, ?_, ?_, ?_, ?_⟩, ?_⟩
  · simp [initialStorage, mapKeys]
  · simp [initialStorage, mapKeys]
  · intro k hk
    simp [initialStorage, mapHas] at hk
  · intro kv hkv
    simp only [initialStorage, List.mem_singleton] at hkv
    rw [hkv]
    rfl
  · simp [initialStorage]
  · intro hnone
    simp [initialStorage] at hnone

/-- Claim C1, amended. Over every trace of storage events from an initially
empty storage: (1) as soon as one addPartialInfo has run, the race of
getEnvironments passes at once, without waiting for the all-locators-finished
promise; (2) conversely, while the deferred is still pending, no add ever
happened; (3) when no record was ever added (no add of either kind in the
trace), the deferred stays pending and the race cannot pass before the
all-locators-finished continuation resolves, so an empty answer is only
given after all locators finished with nothing discovered; (4) the returned
list is empty exactly when both maps are empty; (5) the returned list is
exactly the merged union of the Partial and Complete maps (which under the
storage invariant is their concatenation). The original final conjunct of the
claim, that a valid record yielded by a locator rules an empty answer out,
fails on the code: see the counterexample, where a failed enrichment probe
empties the storage again. -/
theorem C1_getEnvironments_best_effort_amended (norm : String → String)
    (tr : List StorageEvent) :
    ((∃ interpreter, StorageEvent.add interpreter ∈ tr) →
      racePassed (runTraceFrom norm (initialStorage [] []) tr) false = true) ∧
    ((runTraceFrom norm (initialStorage [] []) tr).didEffortToPopulateStorageSucceed
        = none →
      (∀ interpreter, StorageEvent.add interpreter ∉ tr) ∧
      (∀ interpreter info, StorageEvent.addBlocking interpreter info ∉ tr)) ∧
    ((∀ interpreter, StorageEvent.add interpreter ∉ tr) →
      (∀ interpreter info, StorageEvent.addBlocking interpreter info ∉ tr) →
      (runTraceFrom norm (initialStorage [] []) tr).didEffortToPopulateStorageSucceed
        = none ∧
      racePassed (runTraceFrom norm (initialStorage [] []) tr) false = false) ∧
    (getEnvironmentsResult (runTraceFrom norm (initialStorage [] []) tr) = [] ↔
      (runTraceFrom norm (initialStorage [] []) tr).partialInfoEnvironmentMap = [] ∧
      (runTraceFrom norm (initialStorage [] []) tr).completeInfoEnvironmentMap = []) ∧
    getEnvironmentsResult (runTraceFrom norm (initialStorage [] []) tr) =
      mapValues (runTraceFrom norm (initialStorage [] []) tr).partialInfoEnvironmentMap
        ++ mapValues
          (runTraceFrom norm (initialStorage [] []) tr).completeInfoEnvironmentMap := by
  have hinv := runTraceFrom_inv norm (initialStorage [] []) tr storageInv_initial_empty
  refine ⟨?_, ?_, ?_, ?_, ?_⟩
  · rintro ⟨interpreter, hmem⟩
    have hs := runTraceFrom_add_succeeded norm _ tr interpreter
      storageInv_initial_empty hmem
    simp [racePassed, hs]
  · intro hnone
    constructor
    · intro interpreter hmem
      have hs := runTraceFrom_add_succeeded norm _ tr interpreter
        storageInv_initial_empty hmem
      rw [hnone] at hs
      simp at hs
    · intro interpreter info hmem
      have hs := runTraceFrom_addBlocking_succeeded norm _ tr interpreter info
        storageInv_initial_empty hmem
      rw [hnone] at hs
      simp at hs
  · intro hadd hblock
    have hpend := runTraceFrom_succeeded_of_no_add norm (initialStorage [] []) tr
      hadd hblock
    have hinit0 : (initialStorage [] []).didEffortToPopulateStorageSucceed = none := by
      simp [initialStorage]
    rw [hinit0] at hpend
    refine ⟨hpend, ?_⟩
    simp [racePassed, hpend]
  · exact getEnvironmentsResult_eq_nil_iff _
  · exact getEnvironmentsResult_eq_union _ hinv.1

/-- Claim C1, counterexample to the claim as stated: a locator yields a valid
record (no prune event occurs, so no entry is ever removed for invalidity and
the path may exist on disk throughout), its enrichment probe fails, and the
storage is empty again; getEnvironments races, passes at once (the deferred
is resolved with true) and returns the empty list, although a locator had
yielded a valid record before discovery completed. -/
theorem C1_empty_result_after_probe_failure :
    StorageEvent.add exampleDiscoveredRecord ∈
      [StorageEvent.add exampleDiscoveredRecord, StorageEvent.enrich 0 none] ∧
    (runTraceFrom (fun s => s) (initialStorage [] [])
      [StorageEvent.add exampleDiscoveredRecord,
       StorageEvent.enrich 0 none]).didEffortToPopulateStorageSucceed = some true ∧
    racePassed (runTraceFrom (fun s => s) (initialStorage [] [])
      [StorageEvent.add exampleDiscoveredRecord, StorageEvent.enrich 0 none])
      false = true ∧
    getEnvironmentsResult (runTraceFrom (fun s => s) (initialStorage [] [])
      [StorageEvent.add exampleDiscoveredRecord, StorageEvent.enrich 0 none])
      = [] := by
  decide

/-- Claim C2: over every trace from a state satisfying the storage invariant,
each map keeps at most one record per canonicalized path, a path present in
the Complete map is not (any longer) in the Partial map, and a call of
addPartialInfo for a path that already has a Complete record returns the
state unchanged: neither map changes, no enrichment is requested (the pending
enrichment list is untouched), and the Complete record is never regressed. -/
theorem C2_per_path_uniqueness_and_no_regress (norm : String → String)
    (init : StorageState) (tr : List StorageEvent) (hinit : StorageInv init) :
    (mapKeys (runTraceFrom norm init tr).partialInfoEnvironmentMap).Nodup ∧
    (mapKeys (runTraceFrom norm init tr).completeInfoEnvironmentMap).Nodup ∧
    (∀ k, mapHas (runTraceFrom norm init tr).completeInfoEnvironmentMap k = true →
      mapHas (runTraceFrom norm init tr).partialInfoEnvironmentMap k = false) ∧
    (∀ interpreter,
      mapHas (runTraceFrom norm init tr).completeInfoEnvironmentMap
        (norm interpreter.path) = true →
      EnvironmentsStorage.addPartialInfo norm (runTraceFrom norm init tr)
        interpreter = runTraceFrom norm init tr) := by
  obtain ⟨⟨h1, h2, h3, h4, h5⟩, h6⟩ := runTraceFrom_inv norm init tr hinit
  refine ⟨h1, h2, h3, ?_⟩
  intro interpreter hhas
  unfold EnvironmentsStorage.addPartialInfo
  rw [if_pos hhas]

/-- Claim C2, witness: against a storage whose Complete map already holds a
record for the path, addPartialInfo for that path leaves the state
unchanged. -/
theorem C2_no_regress_witness :
    EnvironmentsStorage.addPartialInfo (fun s => s)
      (initialStorage [] [("/envs/a/python", exampleCompleteRecord)])
      exampleLateRecord
    = initialStorage [] [("/envs/a/python", exampleCompleteRecord)] := by
  have h := C2_per_path_uniqueness_and_no_regress (fun s => s)
    (initialStorage [] [("/envs/a/python", exampleCompleteRecord)]) []
    storageInv_seed_complete
  exact h.2.2.2 exampleLateRecord (by decide)

/-- Claim C3, the code evaluated at the failing input: the storage is seeded
with a record whose path is not on disk; getEnvironments runs
removeInvalidEntriesFromStorage, which only schedules the validity checks
(its Promise.all waits on the undefined results of the outer map callback,
not on the checks), so when the race then passes at once (the deferred was
resolved at construction) the snapshot still carries the dead record: the
first call returns it, contradicting the claim that every call prunes before
computing its result. Once the scheduled check resolves (the filesystem
answers false), the record is gone from every later result. -/
theorem C3_stale_record_survives_first_call :
    racePassed (stepStorage (fun s => s)
      (initialStorage [("/dead/python", deadRecord)] [])
      StorageEvent.schedulePruneChecks) false = true ∧
    (getEnvironmentsResult (stepStorage (fun s => s)
      (initialStorage [("/dead/python", deadRecord)] [])
      StorageEvent.schedulePruneChecks)).map PartialPythonEnvironment.path
      = ["/dead/python"] ∧
    (getEnvironmentsResult (stepStorage (fun s => s)
      (stepStorage (fun s => s) (initialStorage [("/dead/python", deadRecord)] [])
        StorageEvent.schedulePruneChecks)
      (StorageEvent.prunePartialCheck 0 false))).map PartialPythonEnvironment.path
      = [] := by
  decide

/-- Claim C10: when the enrichment probe for a path resolves with undefined,
the completion handler leaves the Complete map untouched, deletes the Partial
record of that path (deleting nothing when none is stored), and afterwards no
record for that path remains in the partial map; when the Complete map does
not hold the path either, the environment is absent from the result of every
subsequent getEnvironments computed on that state. -/
theorem C10_failed_probe_drops_partial_record (st : StorageState) (p : String)
    (interpreter : PartialPythonEnvironment) (hinv : StorageInv st) :
    (EnvironmentsStorage.storeCompleteInfo st p interpreter
      none).completeInfoEnvironmentMap = st.completeInfoEnvironmentMap ∧
    (EnvironmentsStorage.storeCompleteInfo st p interpreter
      none).partialInfoEnvironmentMap = mapDelete st.partialInfoEnvironmentMap p ∧
    mapHas (EnvironmentsStorage.storeCompleteInfo st p interpreter
      none).partialInfoEnvironmentMap p = false ∧
    (mapHas st.completeInfoEnvironmentMap p = false →
      ∀ r ∈ getEnvironmentsResult
        (EnvironmentsStorage.storeCompleteInfo st p interpreter none),
        r.path ≠ p) := by
  obtain ⟨⟨h1, h2, h3, h4, h5⟩, h6⟩ := hinv
  rw [storeCompleteInfo_spec]
  refine ⟨rfl, rfl, mapHas_delete_self _ _, ?_⟩
  intro hc r hr
  have hmem := mergeEnvironments_paths _ r hr
  rw [show mapValues ({ st with
        partialInfoEnvironmentMap := mapDelete st.partialInfoEnvironmentMap p,
        completeInfoEnvironmentMap :=
          st.completeInfoEnvironmentMap } : StorageState).partialInfoEnvironmentMap
      = mapValues (mapDelete st.partialInfoEnvironmentMap p) from rfl] at hmem
  rw [List.map_append, List.mem_append] at hmem
  rcases hmem with hmem | hmem
  · obtain ⟨v, hv, hvp⟩ := List.mem_map.mp hmem
    obtain ⟨kv, hkv, hkv2⟩ := List.mem_map.mp hv
    have hne : kv.1 ≠ p := by
      have hf := List.of_mem_filter hkv
      simpa using hf
    have hpath : v.path = kv.1 := by
      rw [← hkv2]
      exact valuesMatch_delete h4 kv hkv
    intro hrp
    rw [← hvp, hpath] at hrp
    exact hne hrp
  · obtain ⟨v, hv, hvp⟩ := List.mem_map.mp hmem
    obtain ⟨kv, hkv, hkv2⟩ := List.mem_map.mp hv
    intro hrp
    have hpath : v.path = kv.1 := by
      rw [← hkv2]
      exact h5 kv hkv
    rw [← hvp, hpath] at hrp
    have hhas : mapHas st.completeInfoEnvironmentMap p = true := by
      rw [mapHas_iff, ← hrp]
      exact List.mem_map_of_mem _ hkv
    rw [hhas] at hc
    cases hc

/-- Claim C10, witness: a storage holding one partial record whose probe
fails ends with both maps empty. -/
theorem C10_failed_probe_witness :
    (EnvironmentsStorage.storeCompleteInfo
      (initialStorage [("/env/python", seedPartialRecord)] []) "/env/python"
      seedPartialRecord none).partialInfoEnvironmentMap = [] ∧
    (EnvironmentsStorage.storeCompleteInfo
      (initialStorage [("/env/python", seedPartialRecord)] []) "/env/python"
      seedPartialRecord none).completeInfoEnvironmentMap = [] := by
  have h := C10_failed_probe_drops_partial_record
    (initialStorage [("/env/python", seedPartialRecord)] []) "/env/python"
    seedPartialRecord storageInv_seed_partial
  constructor
  · rw [h.2.1]
    decide
  · rw [h.1]
    rfl

/-- Claim C4: getEnvironmentInfo answers from the cache without running a
probe once a path has a cached result (whatever probe outcome a run would
have had, and at either priority); a successful probe is stored in the cache,
so every later call for the path returns it; a probe that yields undefined is
not cached and leaves the state unchanged, so the next call for the same path
runs the probe again (the probe-ran flag is true) and may succeed; and no
call for any path evicts a cached entry. -/
theorem C4_probe_cache_policy (st : EnvironmentInfoService.ServiceState)
    (interpreterPath : String) (result : EnvironmentInfo) :
    (∀ priority probeResult, mapGet st.cache interpreterPath = some result →
      EnvironmentInfoService.getEnvironmentInfo st interpreterPath priority
        probeResult = (some result, st, false)) ∧
    (∀ priority, mapGet st.cache interpreterPath = none →
      EnvironmentInfoService.getEnvironmentInfo st interpreterPath priority
          (some result)
        = (some result, { cache := mapSet st.cache interpreterPath result }, true) ∧
      mapGet (mapSet st.cache interpreterPath result) interpreterPath
        = some result) ∧
    (∀ priority, mapGet st.cache interpreterPath = none →
      EnvironmentInfoService.getEnvironmentInfo st interpreterPath priority none
        = (none, st, true)) ∧
    (∀ q priority probeResult, mapGet st.cache interpreterPath = some result →
      mapGet (EnvironmentInfoService.getEnvironmentInfo st q priority
        probeResult).2.1.cache interpreterPath = some result) := by
  refine ⟨?_, ?_, ?_, ?_⟩
  · intro priority probeResult hget
    unfold EnvironmentInfoService.getEnvironmentInfo
    rw [hget]
  · intro priority hget
    constructor
    · unfold EnvironmentInfoService.getEnvironmentInfo
      rw [hget]
      cases priority with
      | none => rfl
      | some pr => cases pr <;> rfl
    · exact mapGet_set_self _ _ _
  · intro priority hget
    unfold EnvironmentInfoService.getEnvironmentInfo
    rw [hget]
    cases priority with
    | none => rfl
    | some pr => cases pr <;> rfl
  · intro q priority probeResult hget
    by_cases hq : q = interpreterPath
    · subst hq
      unfold EnvironmentInfoService.getEnvironmentInfo
      rw [hget]
      exact hget
    · unfold EnvironmentInfoService.getEnvironmentInfo
      cases hgq : mapGet st.cache q with
      | some r2 =>
        exact hget
      | none =>
        have hset : ∀ r : EnvironmentInfo,
            mapGet (mapSet st.cache q r) interpreterPath = some result := by
          intro r
          rw [mapGet_set_ne _ _ _ _ (fun hh => hq hh.symm)]
          exact hget
        cases priority with
        | none =>
          cases probeResult with
          | none => exact hget
          | some r => exact hset r
        | some pr =>
          cases pr with
          | Default =>
            cases probeResult with
            | none => exact hget
            | some r => exact hset r
          | High =>
            cases probeResult with
            | none => exact hget
            | some r => exact hset r

/-- Concrete inputs of the kernel-spec scoring example of the claim. -/
def examplePathExists : String → Bool :=
  fun p => p == "/usr/bin/python3" || p == "/opt/py2"

def exampleGetDetails : String → Option (List Int) :=
  fun p =>
    if p == "/usr/bin/python3" then some [3, 8, 3]
    else if p == "/opt/py2" then some [2, 7, 16] else none

def exampleActiveInfo : JupyterExecution.InterpreterInformation :=
  { path := "/usr/bin/python3", version_info := some [3, 8, 3] }

def exampleSpecPython3 : JupyterExecution.IJupyterKernelSpec :=
  { name := "python3", language := "python", path := "/usr/bin/python3" }

def exampleSpecPy2 : JupyterExecution.IJupyterKernelSpec :=
  { name := "python2", language := "python", path := "/opt/py2" }

/-- Claim C5: findSpecMatch selects by the additive score of specScore (path
match 10, python language 1, then the nested 4, 2, 1 version points read from
the interpreter behind the spec path). When every candidate scores zero the
first enumerated spec is returned; a returned spec of positive score is the
first candidate attaining the maximal score (every earlier candidate scores
strictly less, every later one at most as much). On the concrete input of the
claim the first spec scores 10 + 1 + 4 + 2 + 1 = 18, the second scores 1, and
the first is selected. -/
theorem C5_kernel_spec_scoring :
    (∀ pathExists getInterpreterDetails info specs,
      (∀ s ∈ specs,
        JupyterExecution.specScore pathExists getInterpreterDetails info s = 0) →
      JupyterExecution.findSpecMatch pathExists getInterpreterDetails info specs
        = specs.head?) ∧
    (∀ pathExists getInterpreterDetails info specs best,
      JupyterExecution.findSpecMatch pathExists getInterpreterDetails info specs
        = some best →
      (∃ pre post, specs = pre ++ best :: post ∧
        0 < JupyterExecution.specScore pathExists getInterpreterDetails info best ∧
        (∀ s ∈ pre,
          JupyterExecution.specScore pathExists getInterpreterDetails info s <
          JupyterExecution.specScore pathExists getInterpreterDetails info best) ∧
        (∀ s ∈ post,
          JupyterExecution.specScore pathExists getInterpreterDetails info s ≤
          JupyterExecution.specScore pathExists getInterpreterDetails info best)) ∨
      ((∀ s ∈ specs,
          JupyterExecution.specScore pathExists getInterpreterDetails info s = 0) ∧
        specs.head? = some best)) ∧
    JupyterExecution.specScore examplePathExists exampleGetDetails
      (some exampleActiveInfo) exampleSpecPython3 = 18 ∧
    JupyterExecution.specScore examplePathExists exampleGetDetails
      (some exampleActiveInfo) exampleSpecPy2 = 1 ∧
    JupyterExecution.findSpecMatch examplePathExists exampleGetDetails
      (some exampleActiveInfo) [exampleSpecPython3, exampleSpecPy2]
      = some exampleSpecPython3 := by
  refine ⟨?_, ?_, by decide, by decide, by decide⟩
  · intro pathExists getInterpreterDetails info specs hz
    unfold JupyterExecution.findSpecMatch
    rw [foldBest_none_of_all_zero _ _ hz]
  · intro pathExists getInterpreterDetails info specs best hfind
    unfold JupyterExecution.findSpecMatch at hfind
    cases hfold : (foldBest
        (JupyterExecution.specScore pathExists getInterpreterDetails info) specs).2 with
    | some b =>
      rw [hfold] at hfind
      simp only [Option.some.injEq] at hfind
      subst hfind
      obtain ⟨pre, post, hsplit, hpos, -, hpre, hpost⟩ :=
        foldBest_eq_some _ specs b hfold
      exact Or.inl ⟨pre, post, hsplit, hpos, hpre, hpost⟩
    | none =>
      rw [hfold] at hfind
      exact Or.inr ⟨foldBest_eq_none _ _ hfold, hfind⟩

namespace JupyterExecution

def interpreterA : PythonInterpreter :=
  { path := "/envs/a/python", version_info := [3, 8, 3, 0], type := "Conda" }

def interpreterB : PythonInterpreter :=
  { path := "/envs/b/python", version_info := [3, 7, 0, 0], type := "Venv" }

/-- Probes while interpreter A is active: every interpreter has every module,
so resolution succeeds on the active interpreter at once. -/
def probeEnvActiveA : ProbeEnv :=
  { activeInterpreter := some interpreterA,
    interpreters := [interpreterA, interpreterB],
    moduleExists := fun _ _ => true,
    jupyterCommandExists := fun _ => false,
    searchPaths := [],
    readDir := fun _ => [],
    checkJupyterRegExTest := fun _ => false }

/-- The same probes after the active interpreter changed to B. -/
def probeEnvActiveB : ProbeEnv :=
  { probeEnvActiveA with activeInterpreter := some interpreterB }

def notebookCommandA : JupyterCommand :=
  { exe := "/envs/a/python", args := ["-m", "jupyter", "notebook"] }

end JupyterExecution

/-- Claim C6, the code evaluated at the failing input: resolving the notebook
command succeeds against active interpreter A and is cached (the probe-ran
flag is true); the interpreter change runs onSettingsChanged, that is
dispose, which leaves the commands cache untouched; the next resolution,
although interpreter B is now active, returns the stale command bound to the
python of A from the cache without any probe (the probe-ran flag is false),
contradicting the claim that the cache is invalidated wholesale on an active
interpreter change. -/
theorem C6_command_cache_not_invalidated :
    (JupyterExecution.findBestCommand JupyterExecution.probeEnvActiveA
      JupyterExecution.initialJupyterExecutionState "notebook").1
      = some JupyterExecution.notebookCommandA ∧
    (JupyterExecution.findBestCommand JupyterExecution.probeEnvActiveA
      JupyterExecution.initialJupyterExecutionState "notebook").2.2 = true ∧
    (JupyterExecution.onSettingsChanged
        (JupyterExecution.findBestCommand JupyterExecution.probeEnvActiveA
          JupyterExecution.initialJupyterExecutionState "notebook").2.1).commands
      = (JupyterExecution.findBestCommand JupyterExecution.probeEnvActiveA
          JupyterExecution.initialJupyterExecutionState "notebook").2.1.commands ∧
    JupyterExecution.findBestCommand JupyterExecution.probeEnvActiveB
        (JupyterExecution.onSettingsChanged
          (JupyterExecution.findBestCommand JupyterExecution.probeEnvActiveA
            JupyterExecution.initialJupyterExecutionState "notebook").2.1)
        "notebook"
      = (some JupyterExecution.notebookCommandA,
         JupyterExecution.onSettingsChanged
           (JupyterExecution.findBestCommand JupyterExecution.probeEnvActiveA
             JupyterExecution.initialJupyterExecutionState "notebook").2.1,
         false) := by
  decide

namespace JupyterExecution

/-- Probes for the path-search claim: no interpreter carries the module, the
bare jupyter invocation works, and the single search directory holds an entry
named jupyter, which the jupyter regular expression matches. -/
def probeEnvPathOnly : ProbeEnv :=
  { activeInterpreter := none,
    interpreters := [],
    moduleExists := fun _ _ => false,
    jupyterCommandExists := fun _ => true,
    searchPaths := ["/usr/local/bin"],
    readDir := fun d => if d == "/usr/local/bin" then ["jupyter"] else [],
    checkJupyterRegExTest := fun s => s == "jupyter" }

end JupyterExecution

/-- Claim C7, the code evaluated at the failing input: the search directory
does contain an entry the jupyter regular expression matches (the filter the
callback was meant to compute keeps it), yet lookForJupyterInDirectory
returns the empty list, because its filter callback has a block body with no
return statement and so yields undefined, which is falsy, for every entry.
Consequently the path search finds nothing, and findBestCommand, with both
interpreter steps failing, returns undefined and caches nothing even though
the bare jupyter command exists and the directory holds a jupyter executable,
contradicting the final sentence of the claim. The returned state equals the
initial one, so the next call repeats the whole probe sequence. -/
theorem C7_jupyter_path_search_never_finds :
    (JupyterExecution.probeEnvPathOnly.readDir "/usr/local/bin").filter
        JupyterExecution.probeEnvPathOnly.checkJupyterRegExTest = ["jupyter"] ∧
    JupyterExecution.lookForJupyterInDirectory JupyterExecution.probeEnvPathOnly
      "/usr/local/bin" = [] ∧
    JupyterExecution.searchPathsForJupyterGo JupyterExecution.probeEnvPathOnly
      JupyterExecution.probeEnvPathOnly.searchPaths = none ∧
    JupyterExecution.findBestCommand JupyterExecution.probeEnvPathOnly
      JupyterExecution.initialJupyterExecutionState "notebook"
      = (none, JupyterExecution.initialJupyterExecutionState, true) := by
  decide

namespace JupyterExecution

def activeWithoutModule : PythonInterpreter :=
  { path := "/usr/bin/python3", version_info := [3, 8, 3, 0], type := "Conda" }

def twinInterpreter : PythonInterpreter :=
  { path := "/envs/twin/python", version_info := [3, 8, 3, 0], type := "Conda" }

end JupyterExecution

/-- Claim C8, counterexample to the claim as stated: the active interpreter
lacks the module and so does the only other known interpreter, whose version
and environment type match the active ones exactly. Under the scoring the
claim states, that interpreter scores 32 + 16 + 8 + 4 + 1 = 61 and, being the
unique highest, would be returned; the code returns undefined, because every
bonus is awarded only inside the module check and a candidate scoring zero
never replaces the initial empty best. -/
theorem C8_module_gating_counterexample :
    JupyterExecution.claimUsableScore (fun _ => false)
      JupyterExecution.activeWithoutModule JupyterExecution.twinInterpreter = 61 ∧
    JupyterExecution.usableScore (fun _ => false)
      JupyterExecution.activeWithoutModule JupyterExecution.twinInterpreter = 0 ∧
    JupyterExecution.getUsableJupyterPython true (fun _ => false)
      (some JupyterExecution.activeWithoutModule)
      [JupyterExecution.twinInterpreter] none = none := by
  decide

/-- Claim C8, amended: with notebook support given and no memoized answer,
getUsableJupyterPython returns the active interpreter when it has the module;
otherwise it runs the strict-best loop over the known interpreters with the
score of usableScore, in which a candidate without the module scores zero and
every bonus (the module point, the nested version points 32, 16, 8, 4, and
the environment-type point) is awarded only when the module is present; a
candidate is returned only when its score is strictly positive, the returned
candidate is the first attaining the maximal score, and when every candidate
scores zero the function returns undefined. -/
theorem C8_usable_python_selection_amended
    (moduleExists : JupyterExecution.PythonInterpreter → Bool)
    (active : JupyterExecution.PythonInterpreter)
    (interpreters : List JupyterExecution.PythonInterpreter) :
    (moduleExists active = true →
      JupyterExecution.getUsableJupyterPython true moduleExists (some active)
        interpreters none = some active) ∧
    (moduleExists active = false →
      JupyterExecution.getUsableJupyterPython true moduleExists (some active)
        interpreters none
        = (foldBest (JupyterExecution.usableScore moduleExists active)
            interpreters).2) ∧
    (∀ cand, cand ≠ active → moduleExists cand = true →
      JupyterExecution.usableScore moduleExists active cand =
        1 +
        (if jsIdx cand.version_info 0 = jsIdx active.version_info 0 then
           32 + (if jsIdx cand.version_info 1 = jsIdx active.version_info 1 then
                   16 + (if jsIdx cand.version_info 2 = jsIdx active.version_info 2
                         then 8 + (if jsIdx cand.version_info 3
                                      = jsIdx active.version_info 3
                                   then 4 else 0)
                         else 0)
                 else 0)
         else 0) +
        (if cand.type = active.type then 1 else 0)) ∧
    (∀ cand, cand ≠ active → moduleExists cand = false →
      JupyterExecution.usableScore moduleExists active cand = 0) ∧
    (∀ best,
      (foldBest (JupyterExecution.usableScore moduleExists active)
        interpreters).2 = some best →
      ∃ pre post, interpreters = pre ++ best :: post ∧
        0 < JupyterExecution.usableScore moduleExists active best ∧
        (∀ y ∈ pre, JupyterExecution.usableScore moduleExists active y <
          JupyterExecution.usableScore moduleExists active best) ∧
        (∀ y ∈ post, JupyterExecution.usableScore moduleExists active y ≤
          JupyterExecution.usableScore moduleExists active best)) ∧
    (moduleExists active = false →
      (∀ y ∈ interpreters, JupyterExecution.usableScore moduleExists active y = 0) →
      JupyterExecution.getUsableJupyterPython true moduleExists (some active)
        interpreters none = none) := by
  refine ⟨?_, ?_, ?_, ?_, ?_, ?_⟩
  · intro hmod
    unfold JupyterExecution.getUsableJupyterPython
    simp [hmod]
  · intro hmod
    unfold JupyterExecution.getUsableJupyterPython
    simp [hmod]
  · intro cand hne hmod
    unfold JupyterExecution.usableScore
    rw [if_neg hne, if_pos hmod]
  · intro cand hne hmod
    unfold JupyterExecution.usableScore
    rw [if_neg hne, if_neg (by simp [hmod])]
  · intro best hfold
    obtain ⟨pre, post, hsplit, hpos, -, hpre, hpost⟩ :=
      foldBest_eq_some _ interpreters best hfold
    exact ⟨pre, post, hsplit, hpos, hpre, hpost⟩
  · intro hmod hz
    unfold JupyterExecution.getUsableJupyterPython
    simp only [hmod]
    rw [foldBest_none_of_all_zero _ _ hz]
    rfl

namespace JupyterExecution

def pathlessSpecPython3 : IJupyterKernelSpec :=
  { name := "python3", language := "python", path := "python" }

def targetInfoMajor3 : InterpreterInformation :=
  { path := "/usr/bin/python3", version_info := some [3, 8, 3, 0] }

end JupyterExecution

/-- Claim C9, the code evaluated at the failing input: a spec whose path is
the bare word python and cannot be resolved on disk, whose declared name
python3 ends in the digit of the major version of the target interpreter.
The regular expression does match (full match python3, capture group 3), but
the code parses the FULL match rather than the capture group: parseInt on
python3 is NaN, so the four points are never awarded and the spec scores only
the language point. Had the capture group been parsed, parseInt would have
given 3, the major version. This contradicts the claim (and the comments of
the source), which award 4 points here. -/
theorem C9_name_version_bonus_never_awarded :
    execNameRegex "python3" = some ("python3", "3") ∧
    parseIntJs "python3" = none ∧
    parseIntJs "3" = some 3 ∧
    JupyterExecution.specScore (fun _ => false) (fun _ => none)
      (some JupyterExecution.targetInfoMajor3)
      JupyterExecution.pathlessSpecPython3 = 1 := by
  decide

end PyDiscovery
